import Mathlib

/-!
A shallow embedding of `src/tar.rs` from the `toast` repository: the
deterministic archive-and-fingerprint builder (`create` and its helper
`add_file`).  Filesystem interaction, the `walkdir` traversal stream, the
external hash engine (`cache` module), and the cooperative cancellation
flag are modelled as explicit inputs (a `World`); machine paths are modelled
as an absolute-flag plus a component list; fallible operations return
explicit error payloads and the `unwrap` on `Builder::append_data` is
modelled as a distinguished `panic` outcome.  The spinner (`spin`) is pure
UI with no effect on the result and is not modelled.
-/

namespace Toast

/-- A filesystem path: whether it is absolute, plus its components.
Mirrors the subset of `std::path::Path` behaviour `tar.rs` relies on. -/
structure MPath where
  abs : Bool
  comps : List String
  deriving DecidableEq

/-- `Path::join` with the replace-on-absolute semantics of Rust: joining an
absolute right-hand side replaces the left-hand side entirely. -/
def MPath.join (p q : MPath) : MPath :=
  if q.abs then q else ⟨p.abs, p.comps ++ q.comps⟩

/-- `Path::to_string_lossy` for our model paths (all components are valid
Unicode here, so the conversion is exact). -/
def MPath.toStringLossy (p : MPath) : String :=
  (if p.abs then "/" else "") ++ String.intercalate "/" p.comps

/-- Component-list difference: `compsAfter base full` is `some rest` when
`full = base ++ rest`. -/
def compsAfter : List String → List String → Option (List String)
  | [], ys => some ys
  | _ :: _, [] => none
  | x :: xs, y :: ys => if x = y then compsAfter xs ys else none

/-- `Path::strip_prefix`: succeeds when `base` is a component-wise prefix of
`p` (with matching absoluteness) and returns the relative remainder. -/
def MPath.relativeTo (p base : MPath) : Option MPath :=
  if p.abs = base.abs then (compsAfter base.comps p.comps).map (fun cs => ⟨false, cs⟩)
  else none

/-- Modelled from the spec: the external Hash Engine (`cache::hash_str`,
`cache::hash_read`, `cache::extend` live in the repository's `cache` module,
which is outside the given fragment).  The spec requires three deterministic
functions producing fixed-length, totally ordered digests; in the code
digests are `String`s collected in a `Vec<String>` and compared with Rust's
byte-lexicographic `String` ordering, so digests are modelled as Lean
strings (whose order agrees with byte-lexicographic order on UTF-8). -/
structure HashEngine where
  hash_str : String → String
  hash_bytes : String → String
  extend : String → String → String

/-- Filesystem metadata (`std::fs::Metadata`) as `tar.rs` consumes it: the
permission mode bits, the byte length, and the directory flag.  The `mtime`
and `uid` fields model metadata the real filesystem carries but the code
never reads; they let determinism be stated as a real noninterference
property. -/
structure MMeta where
  mode : Nat
  len : Nat
  isDir : Bool
  mtime : Nat
  uid : Nat
  deriving DecidableEq

/-- One `walkdir::DirEntry` as the code consumes it: its path, whether its
(non-link-following) file type is a regular file, the result of
`entry.metadata()`, and the result of `entry.path().canonicalize()`. -/
structure WalkEnt where
  path : MPath
  isFile : Bool
  metaRes : Except String MMeta
  canonRes : Except String MPath

/-- The environment a run of `create` interacts with: the result of
canonicalizing the source directory, `fs::metadata` lookups, the `walkdir`
entry stream of each directory, per-file open/read/seek outcomes and
contents, whether appending a given source file to the tar builder succeeds
(the writer can fail), the outcome of `Builder::into_inner`, and the
sequence of values successive loads of the shared `AtomicBool` cancellation
flag observe. -/
structure World where
  canonSource : Except String MPath
  meta : MPath → Except String MMeta
  walk : MPath → List (Except String WalkEnt)
  openErr : MPath → Option String
  hashReadErr : MPath → Option String
  content : MPath → String
  seekErr : MPath → Option String
  appendOk : MPath → Bool
  intoInnerErr : Option String
  interrupted : Nat → Bool

/-- Outcome of a fragment of Rust code that can return normally, return an
`Err`, or panic (`unwrap` on an `Err`). -/
inductive PRes (α : Type) where
  | ok (a : α)
  | err (e : String)
  | panic (e : String)
  deriving DecidableEq

/-- One entry appended to the tar archive: destination path, header mode,
header size, and content bytes.  Byte-identosed archives correspond to equal
entry lists. -/
structure Entry where
  destination : MPath
  mode : Nat
  size : Nat
  content : String
  deriving DecidableEq

/-- The mutable state of a run: the archive entries appended so far
(`builder`) and the per-file digests collected so far (`file_hashes`). -/
structure St where
  entries : List Entry
  hashes : List String
  deriving DecidableEq

/-- Modelled from the spec: `super::INTERRUPT_MESSAGE`, the distinguished
interruption sentinel defined outside the fragment, returned whenever the
cancellation flag is observed set. -/
def INTERRUPT_MESSAGE : String := "Interrupted."

/-- Modelled from the spec: `CodeStr::code_str` from the external `format`
module merely decorates a string for terminal display; modelled as the
identity on the text. -/
def codeStr (s : String) : String := s

/-- The executable test of `add_file`:
`mode & 0o1 > 0 || mode & 0o10 > 0 || mode & 0o100 > 0`. -/
def isExecutable (mode : Nat) : Bool :=
  decide (mode &&& 0o1 > 0) || decide (mode &&& 0o10 > 0) || decide (mode &&& 0o100 > 0)

/-- The destination-path computation of `add_file`: join the destination
directory with the relative path, then strip one leading root separator if
the result is absolute (tag `destination_absolute`). -/
def destPath (destinationDir path : MPath) : MPath :=
  let destination := destinationDir.join path
  if destination.abs then ⟨false, destination.comps⟩ else destination

/-- Shallow embedding of `add_file` (src/tar.rs lines 17-75): compute source
and destination paths, classify executability, build the header, open the
file, push the per-file digest, seek back, and append header plus content to
the archive.  The `unwrap` on `append_data` becomes a `panic` outcome. -/
def addFile (E : HashEngine) (w : World) (metadata : MMeta)
    (path sourceDir destinationDir : MPath) (st : St) : PRes St :=
  let source := sourceDir.join path
  let destination := destPath destinationDir path
  let executable := isExecutable metadata.mode
  let headerMode := if executable then 0o777 else 0o666
  match w.openErr source with
  | some e =>
    .err ("Unable to open file " ++ codeStr source.toStringLossy ++ ". Details: " ++ e)
  | none =>
    match w.hashReadErr source with
    | some e => .err e
    | none =>
      let st1 : St := ⟨st.entries,
        st.hashes ++
          [E.extend (E.extend (E.hash_str path.toStringLossy) (E.hash_bytes (w.content source)))
            (if executable then "+x" else "-x")]⟩
      match w.seekErr source with
      | some e =>
        .err ("Unable to seek file " ++ codeStr source.toStringLossy ++ ". Details: " ++ e)
      | none =>
        if w.appendOk source then
          .ok ⟨st1.entries ++ [⟨destination, headerMode, metadata.len, w.content source⟩],
            st1.hashes⟩
        else
          .panic ("called Result::unwrap() on an Err value while appending " ++
            source.toStringLossy)

/-- Shallow embedding of the `for entry in WalkDir::new(&source_path)` loop
of `create` (src/tar.rs lines 130-181): poll the cancellation flag before
each entry, surface traversal and metadata errors, and for each regular file
canonicalize its path, relativize it against the canonical source root, and
ingest it with `addFile`.  `n` counts flag polls so far. -/
def walkLoop (E : HashEngine) (w : World) (src dst sourcePath : MPath) :
    List (Except String WalkEnt) → Nat → St → PRes (St × Nat)
  | [], n, st => .ok (st, n)
  | e :: rest, n, st =>
    if w.interrupted n then .err INTERRUPT_MESSAGE
    else
      match e with
      | .error msg =>
        .err ("Unable to traverse directory " ++ codeStr sourcePath.toStringLossy ++
          ". Details: " ++ msg)
      | .ok ent =>
        match ent.metaRes with
        | .error msg =>
          .err ("Unable to fetch filesystem metadata for " ++
            codeStr sourcePath.toStringLossy ++ ". Details: " ++ msg)
        | .ok entMeta =>
          if ent.isFile then
            match ent.canonRes with
            | .error msg =>
              .err ("Unable to canonicalize path " ++ codeStr ent.path.toStringLossy ++
                ". Details: " ++ msg)
            | .ok canonPath =>
              match canonPath.relativeTo src with
              | none =>
                .err ("Unable to relativize path " ++ codeStr ent.path.toStringLossy ++
                  " with respect to " ++ codeStr src.toStringLossy ++
                  ". Details: prefix not found")
              | some rel =>
                match addFile E w entMeta rel src dst st with
                | .err e2 => .err e2
                | .panic e2 => .panic e2
                | .ok st2 => walkLoop E w src dst sourcePath rest (n + 1) st2
          else
            walkLoop E w src dst sourcePath rest (n + 1) st

/-- Shallow embedding of the `for path in paths` loop of `create`
(src/tar.rs lines 109-193): poll the cancellation flag before each top-level
input, fetch its metadata, and route directories through `walkLoop` and
plain files through `addFile`. -/
def pathsLoop (E : HashEngine) (w : World) (src dst : MPath) :
    List MPath → Nat → St → PRes (St × Nat)
  | [], n, st => .ok (st, n)
  | p :: rest, n, st =>
    if w.interrupted n then .err INTERRUPT_MESSAGE
    else
      match w.meta (src.join p) with
      | .error e =>
        .err ("Unable to fetch filesystem metadata for " ++
          codeStr (src.join p).toStringLossy ++ ". Details: " ++ e)
      | .ok md =>
        if md.isDir then
          match walkLoop E w src dst (src.join p) (w.walk (src.join p)) (n + 1) st with
          | .err e => .err e
          | .panic e => .panic e
          | .ok (st2, n2) => pathsLoop E w src dst rest n2 st2
        else
          match addFile E w md p src dst st with
          | .err e => .err e
          | .panic e => .panic e
          | .ok st2 => pathsLoop E w src dst rest (n + 1) st2

/-- Strict lexicographic comparison of character lists by code point, the
order Rust's `Vec::<String>::sort()` uses (byte-lexicographic comparison of
UTF-8 strings coincides with code-point-lexicographic comparison).  Written
as a structural Boolean recursion so that it evaluates inside the kernel;
`strLeb_iff` below proves it agrees with the `String` linear order. -/
def charListLt : List Char → List Char → Bool
  | _, [] => false
  | [], _ :: _ => true
  | c :: cs, d :: ds =>
    if c.toNat < d.toNat then true
    else if d.toNat < c.toNat then false
    else charListLt cs ds

/-- Strict byte-lexicographic comparison of strings. -/
def strLtb (a b : String) : Bool := charListLt a.data b.data

/-- Reflexive byte-lexicographic comparison of strings (`a <= b` in Rust's
`String` ordering). -/
def strLeb (a b : String) : Bool := ! strLtb b a

/-- The sort applied to `file_hashes` (src/tar.rs line 197): Rust's
`Vec::<String>::sort()` orders strings byte-lexicographically. -/
def sortStrings (l : List String) : List String :=
  List.insertionSort (fun a b => strLeb a b = true) l

/-- The fingerprint aggregation of `create` (src/tar.rs lines 195-207):
sort the collected digests and fold them with `extend` starting from
`hash_str("")`. -/
def aggregate (E : HashEngine) (l : List String) : String :=
  (sortStrings l).foldl (fun acc x => E.extend acc x) (E.hash_str "")

/-- Shallow embedding of `create` (src/tar.rs lines 78-208): canonicalize
the source directory, process every input path, finalize the builder with
`into_inner`, and return the archive entries together with the aggregated
fingerprint. -/
def create (E : HashEngine) (w : World) (paths : List MPath)
    (sourceDir destinationDir : MPath) : PRes (List Entry × String) :=
  match w.canonSource with
  | .error e =>
    .err ("Unable to canonicalize path " ++ codeStr sourceDir.toStringLossy ++
      ". Details: " ++ e)
  | .ok src =>
    match pathsLoop E w src destinationDir paths 0 ⟨[], []⟩ with
    | .err e => .err e
    | .panic e => .panic e
    | .ok (st, _) =>
      match w.intoInnerErr with
      | some e => .err ("Error writing tar archive. Details: " ++ e)
      | none => .ok (st.entries, aggregate E st.hashes)

/-- Map a function over the `ok` payload of a `PRes`, keeping error and
panic messages. -/
def PRes.map {α β : Type} (f : α → β) : PRes α → PRes β
  | .ok a => .ok (f a)
  | .err e => .err e
  | .panic e => .panic e

/-- Whether a `PRes` is the panic outcome. -/
def PRes.isPanic {α : Type} : PRes α → Bool
  | .panic _ => true
  | _ => false

/-- The list of per-file digests a run of `create` collects (the final value
of `file_hashes`), when the run reaches the aggregation step. -/
def runHashes (E : HashEngine) (w : World) (paths : List MPath) (d : MPath) :
    Option (List String) :=
  match w.canonSource with
  | .error _ => none
  | .ok src =>
    match pathsLoop E w src d paths 0 ⟨[], []⟩ with
    | .ok (st, _) => some st.hashes
    | .err _ => none
    | .panic _ => none

/-- The spec's executability predicate, stated in its own words: at least
one of the owner, group, or other execute permission bits (bits 6, 3, 0 of
the mode) is set. -/
def specExecutable (mode : Nat) : Prop :=
  mode.testBit 0 = true ∨ mode.testBit 3 = true ∨ mode.testBit 6 = true

/-- The part of the filesystem metadata the code actually reads: mode bits,
byte length, directory flag.  `mtime` and `uid` are deliberately omitted. -/
def MMeta.obs (m : MMeta) : Nat × Nat × Bool :=
  (m.mode, m.len, m.isDir)

/-- Observable part of an `fs::metadata` result. -/
def metaObs (r : Except String MMeta) : Except String (Nat × Nat × Bool) :=
  r.map MMeta.obs

/-- Observable part of a walk entry: its path, file-type flag, observable
metadata, and canonicalization result. -/
def WalkEnt.obs (e : WalkEnt) :
    MPath × Bool × Except String (Nat × Nat × Bool) × Except String MPath :=
  (e.path, e.isFile, metaObs e.metaRes, e.canonRes)

/-- Observable part of one element of a `walkdir` stream. -/
def entObs (r : Except String WalkEnt) :
    Except String (MPath × Bool × Except String (Nat × Nat × Bool) × Except String MPath) :=
  r.map WalkEnt.obs

/-- Two worlds presenting the same unchanged file set: they agree on
everything the code can observe (canonicalization, observable metadata,
walk streams, per-file I/O outcomes and contents, finalization), though the
metadata the code never reads (timestamps, ownership) may differ. -/
def World.obsEq (w1 w2 : World) : Prop :=
  w1.canonSource = w2.canonSource ∧
    (∀ p, metaObs (w1.meta p) = metaObs (w2.meta p)) ∧
    (∀ p, (w1.walk p).map entObs = (w2.walk p).map entObs) ∧
    (∀ p, w1.openErr p = w2.openErr p) ∧
    (∀ p, w1.hashReadErr p = w2.hashReadErr p) ∧
    (∀ p, w1.content p = w2.content p) ∧
    (∀ p, w1.seekErr p = w2.seekErr p) ∧
    (∀ p, w1.appendOk p = w2.appendOk p) ∧
    w1.intoInnerErr = w2.intoInnerErr

/-- A concrete hash engine used for witnesses: injective tagging functions
standing in for the opaque external hash primitive. -/
def demoEngine : HashEngine :=
  ⟨fun s => "S:" ++ s, fun s => "B:" ++ s, fun a b => "<" ++ a ++ "|" ++ b ++ ">"⟩

/-- Canonical source root used by the concrete worlds. -/
def rootPath : MPath := ⟨true, ["root"]⟩

/-- The relative source spec `a/b.txt` of the spec's concrete scenario. -/
def pBtxt : MPath := ⟨false, ["a", "b.txt"]⟩

/-- The relative source spec `a/c.sh` of the spec's concrete scenario. -/
def pCsh : MPath := ⟨false, ["a", "c.sh"]⟩

/-- A relative destination root `foo`. -/
def dstFoo : MPath := ⟨false, ["foo"]⟩

/-- Metadata of `a/b.txt`: mode `0o644` (not executable), two bytes. -/
def fileMetaB : MMeta := ⟨0o644, 2, false, 5, 0⟩

/-- Metadata of `a/c.sh`: mode `0o755` (executable), three bytes. -/
def fileMetaC : MMeta := ⟨0o755, 3, false, 7, 0⟩

/-- The concrete world of the spec's scenario: a source root containing
`a/b.txt` with content `hi` (non-executable) and `a/c.sh` with content
`bye` (executable); all I/O succeeds and the flag is never set. -/
def scenarioWorld : World :=
  { canonSource := .ok rootPath
    meta := fun p =>
      if p = rootPath.join pBtxt then .ok fileMetaB
      else if p = rootPath.join pCsh then .ok fileMetaC
      else .error "missing"
    walk := fun _ => []
    openErr := fun _ => none
    hashReadErr := fun _ => none
    content := fun p =>
      if p = rootPath.join pBtxt then "hi"
      else if p = rootPath.join pCsh then "bye" else ""
    seekErr := fun _ => none
    appendOk := fun _ => true
    intoInnerErr := none
    interrupted := fun _ => false }

/-- The scenario world with the cancellation flag observed set at every
poll. -/
def wFlagTrue : World := { scenarioWorld with interrupted := fun _ => true }

/-- A world whose source-root canonicalization fails while the cancellation
flag is set at every poll. -/
def wCanonFail : World :=
  { scenarioWorld with canonSource := .error "denied", interrupted := fun _ => true }

/-- The scenario world whose archive finalization (`into_inner`) fails. -/
def wIntoFail : World := { scenarioWorld with intoInnerErr := some "boom" }

/-- The scenario world whose underlying writer fails on every append. -/
def wAppendFail : World := { scenarioWorld with appendOk := fun _ => false }

/-- The scenario world with different timestamps and owners on both files:
observably identical to `scenarioWorld`, differing only in metadata the
code never reads. -/
def wOtherMtime : World :=
  { scenarioWorld with
    meta := fun p =>
      if p = rootPath.join pBtxt then .ok ⟨0o644, 2, false, 99, 42⟩
      else if p = rootPath.join pCsh then .ok ⟨0o755, 3, false, 123, 42⟩
      else .error "missing" }

/-! Helper lemmas about the embedding. -/


theorem addFile_ok_iff (E : HashEngine) (w : World) (m : MMeta) (p s d : MPath) (st st' : St) :
    addFile E w m p s d st = .ok st' ↔
      w.openErr (s.join p) = none ∧ w.hashReadErr (s.join p) = none ∧
        w.seekErr (s.join p) = none ∧ w.appendOk (s.join p) = true ∧
        st' = ⟨st.entries ++
            [⟨destPath d p, if isExecutable m.mode then 0o777 else 0o666, m.len,
              w.content (s.join p)⟩],
          st.hashes ++
            [E.extend
              (E.extend (E.hash_str p.toStringLossy) (E.hash_bytes (w.content (s.join p))))
              (if isExecutable m.mode then "+x" else "-x")]⟩ := by
  unfold addFile
  cases hop : w.openErr (s.join p) <;> simp only [hop]
  · cases hhr : w.hashReadErr (s.join p) <;> simp only [hhr]
    · cases hsk : w.seekErr (s.join p) <;> simp only [hsk]
      · cases hap : w.appendOk (s.join p)
        · simp
        · simp
          exact eq_comm
      · simp
    · simp
  · simp

theorem addFile_not_panic (E : HashEngine) (w : World) (m : MMeta) (p s d : MPath) (st : St)
    (h : w.appendOk (s.join p) = true) :
    (addFile E w m p s d st).isPanic = false := by
  unfold addFile
  cases hop : w.openErr (s.join p) <;> simp only [hop]
  · cases hhr : w.hashReadErr (s.join p) <;> simp only [hhr]
    · cases hsk : w.seekErr (s.join p) <;> simp only [hsk]
      · simp [h, PRes.isPanic]
      · simp [PRes.isPanic]
    · simp [PRes.isPanic]
  · simp [PRes.isPanic]

theorem addFile_dest_congr (E : HashEngine) (w : World) (m : MMeta) (p s d1 d2 : MPath)
    (st : St) (h : destPath d1 p = destPath d2 p) :
    addFile E w m p s d1 st = addFile E w m p s d2 st := by
  unfold addFile
  rw [h]

theorem addFile_hashes_rel (E : HashEngine) (w : World) (m : MMeta) (p s d1 d2 : MPath)
    (st1 st2 : St) (hh : st1.hashes = st2.hashes) :
    PRes.map St.hashes (addFile E w m p s d1 st1) =
      PRes.map St.hashes (addFile E w m p s d2 st2) := by
  unfold addFile
  cases hop : w.openErr (s.join p) <;> simp only [hop]
  cases hhr : w.hashReadErr (s.join p) <;> simp only [hhr]
  cases hsk : w.seekErr (s.join p) <;> simp only [hsk]
  cases hap : w.appendOk (s.join p) <;> simp [PRes.map, hh]

theorem addFile_obs (E : HashEngine) (w1 w2 : World) (m1 m2 : MMeta) (p s d : MPath) (st : St)
    (hm : m1.obs = m2.obs)
    (hopen : ∀ q, w1.openErr q = w2.openErr q)
    (hhr : ∀ q, w1.hashReadErr q = w2.hashReadErr q)
    (hct : ∀ q, w1.content q = w2.content q)
    (hsk : ∀ q, w1.seekErr q = w2.seekErr q)
    (hap : ∀ q, w1.appendOk q = w2.appendOk q) :
    addFile E w1 m1 p s d st = addFile E w2 m2 p s d st := by
  obtain ⟨hmode, hlen, -⟩ : m1.mode = m2.mode ∧ m1.len = m2.len ∧ m1.isDir = m2.isDir := by
    simpa [MMeta.obs, Prod.ext_iff] using hm
  unfold addFile
  simp only [hopen, hhr, hct, hsk, hap, hmode, hlen]

theorem char_lt_iff_toNat {c d : Char} : c < d ↔ c.toNat < d.toNat := by
  rw [Char.lt_def, UInt32.lt_def, BitVec.lt_def]
  exact Iff.rfl

theorem char_eq_of_toNat_eq {c d : Char} (h : c.toNat = d.toNat) : c = d := by
  apply Char.eq_of_val_eq
  apply UInt32.eq_of_toBitVec_eq
  exact BitVec.eq_of_toNat_eq h

theorem charListLt_iff : ∀ cs ds : List Char, charListLt cs ds = true ↔ List.Lex (· < ·) cs ds
  | _ :: _, [] => by
    simp [charListLt, List.Lex.not_nil_right]
  | [], [] => by
    simp [charListLt, List.Lex.not_nil_right]
  | [], d :: ds => by
    simp [charListLt]
    exact List.Lex.nil
  | c :: cs, d :: ds => by
    unfold charListLt
    rcases Nat.lt_trichotomy c.toNat d.toNat with hlt | heq | hgt
    · rw [if_pos hlt]
      simp only [true_iff]
      exact List.Lex.rel (char_lt_iff_toNat.mpr hlt)
    · have hcd : c = d := char_eq_of_toNat_eq heq
      subst hcd
      rw [if_neg (Nat.lt_irrefl _), if_neg (Nat.lt_irrefl _)]
      rw [charListLt_iff cs ds]
      exact List.Lex.cons_iff.symm
    · rw [if_neg (Nat.lt_asymm hgt), if_pos hgt]
      apply iff_of_false
      · simp
      · intro h
        cases h with
        | cons h => exact absurd hgt (Nat.lt_irrefl _)
        | rel h => exact absurd (char_lt_iff_toNat.mp h) (Nat.lt_asymm hgt)

theorem strLeb_iff (a b : String) : strLeb a b = true ↔ a ≤ b := by
  rw [String.le_iff_toList_le, ← not_lt]
  constructor
  · intro h hlt
    have hl : charListLt b.data a.data = true := (charListLt_iff b.data a.data).mpr hlt
    unfold strLeb strLtb at h
    rw [hl] at h
    simp at h
  · intro h
    unfold strLeb strLtb
    cases hc : charListLt b.data a.data
    · rfl
    · exact absurd ((charListLt_iff b.data a.data).mp hc) h

theorem strLeb_isTotal : IsTotal String (fun a b => strLeb a b = true) :=
  ⟨fun a b => by
    rcases le_total a b with h | h
    · exact Or.inl ((strLeb_iff a b).mpr h)
    · exact Or.inr ((strLeb_iff b a).mpr h)⟩

theorem strLeb_isTrans : IsTrans String (fun a b => strLeb a b = true) :=
  ⟨fun a b c hab hbc =>
    (strLeb_iff a c).mpr (le_trans ((strLeb_iff a b).mp hab) ((strLeb_iff b c).mp hbc))⟩

theorem strLeb_isAntisymm : IsAntisymm String (fun a b => strLeb a b = true) :=
  ⟨fun a b hab hba => le_antisymm ((strLeb_iff a b).mp hab) ((strLeb_iff b a).mp hba)⟩

theorem sortStrings_perm (l : List String) : (sortStrings l).Perm l :=
  List.perm_insertionSort _ l

theorem sortStrings_sorted (l : List String) :
    (sortStrings l).Sorted (fun a b => strLeb a b = true) := by
  haveI := strLeb_isTotal
  haveI := strLeb_isTrans
  exact List.sorted_insertionSort _ l

theorem sortStrings_sorted_le (l : List String) :
    (sortStrings l).Sorted (fun x y => x ≤ y) :=
  List.Pairwise.imp (fun h => (strLeb_iff _ _).mp h) (sortStrings_sorted l)

theorem sortStrings_eq_of_perm (l1 l2 : List String) (h : l1.Perm l2) :
    sortStrings l1 = sortStrings l2 := by
  haveI := strLeb_isAntisymm
  exact List.eq_of_perm_of_sorted
    ((sortStrings_perm l1).trans (h.trans (sortStrings_perm l2).symm))
    (sortStrings_sorted l1) (sortStrings_sorted l2)

theorem aggregate_perm (E : HashEngine) (l1 l2 : List String) (h : l1.Perm l2) :
    aggregate E l1 = aggregate E l2 := by
  unfold aggregate
  rw [sortStrings_eq_of_perm l1 l2 h]

theorem aggregate_sorted_fold (E : HashEngine) (l : List String) :
    ∃ l' : List String, l'.Perm l ∧ l'.Sorted (fun x y => x ≤ y) ∧
      aggregate E l = l'.foldl (fun acc x => E.extend acc x) (E.hash_str "") :=
  ⟨sortStrings l, sortStrings_perm l, sortStrings_sorted_le l, rfl⟩

theorem create_ok_hashes (E : HashEngine) (w : World) (paths : List MPath) (s d : MPath)
    (a : List Entry) (fp : String) (h : create E w paths s d = .ok (a, fp)) :
    ∃ l, runHashes E w paths d = some l ∧ fp = aggregate E l := by
  unfold create at h
  split at h
  · exact PRes.noConfusion h
  · rename_i src hsrc
    split at h
    · exact PRes.noConfusion h
    · exact PRes.noConfusion h
    · rename_i st n hp
      split at h
      · exact PRes.noConfusion h
      · rename_i hii
        injection h with h
        injection h with h1 h2
        exact ⟨st.hashes, by simp [runHashes, hsrc, hp], h2.symm⟩


theorem walkLoop_not_panic (E : HashEngine) (w : World) (src dst sp : MPath)
    (hap : ∀ q, w.appendOk q = true) :
    ∀ (l : List (Except String WalkEnt)) (n : Nat) (st : St),
      (walkLoop E w src dst sp l n st).isPanic = false := by
  intro l
  induction l with
  | nil => intro n st; simp [walkLoop, PRes.isPanic]
  | cons e rest ih =>
    intro n st
    unfold walkLoop
    split
    · simp [PRes.isPanic]
    · split
      · simp [PRes.isPanic]
      · split
        · simp [PRes.isPanic]
        · rename_i ent entMeta hmeta
          split
          · split
            · simp [PRes.isPanic]
            · rename_i canonPath hcanon
              split
              · simp [PRes.isPanic]
              · rename_i rel hrel
                split
                · simp [PRes.isPanic]
                · rename_i e2 haf
                  have hnp := addFile_not_panic E w entMeta rel src dst st (hap _)
                  rw [haf] at hnp
                  simp [PRes.isPanic] at hnp
                · rename_i st2 haf
                  exact ih (n + 1) st2
          · exact ih (n + 1) st

theorem pathsLoop_not_panic (E : HashEngine) (w : World) (src dst : MPath)
    (hap : ∀ q, w.appendOk q = true) :
    ∀ (paths : List MPath) (n : Nat) (st : St),
      (pathsLoop E w src dst paths n st).isPanic = false := by
  intro paths
  induction paths with
  | nil => intro n st; simp [pathsLoop, PRes.isPanic]
  | cons p rest ih =>
    intro n st
    unfold pathsLoop
    split
    · simp [PRes.isPanic]
    · split
      · simp [PRes.isPanic]
      · rename_i md hmd
        split
        · split
          · simp [PRes.isPanic]
          · rename_i e2 hwl
            have hnp := walkLoop_not_panic E w src dst (src.join p) hap (w.walk (src.join p)) (n + 1) st
            rw [hwl] at hnp
            simp [PRes.isPanic] at hnp
          · rename_i st2 n2 hwl
            exact ih n2 st2
        · split
          · simp [PRes.isPanic]
          · rename_i e2 haf
            have hnp := addFile_not_panic E w md p src dst st (hap _)
            rw [haf] at hnp
            simp [PRes.isPanic] at hnp
          · rename_i st2 haf
            exact ih (n + 1) st2

theorem create_not_panic (E : HashEngine) (w : World) (paths : List MPath) (s d : MPath)
    (hap : ∀ q, w.appendOk q = true) :
    (create E w paths s d).isPanic = false := by
  unfold create
  split
  · simp [PRes.isPanic]
  · rename_i src hsrc
    split
    · simp [PRes.isPanic]
    · rename_i e hp
      have hnp := pathsLoop_not_panic E w src d hap paths 0 ⟨[], []⟩
      rw [hp] at hnp
      simp [PRes.isPanic] at hnp
    · rename_i st n hp
      split <;> simp [PRes.isPanic]


theorem destPath_strip (c : List String) (p : MPath) :
    destPath ⟨true, c⟩ p = destPath ⟨false, c⟩ p := by
  unfold destPath MPath.join
  cases hab : p.abs <;> simp [hab]

theorem walkLoop_dest_congr (E : HashEngine) (w : World) (src dst1 dst2 sp : MPath)
    (hd : ∀ p, destPath dst1 p = destPath dst2 p) :
    ∀ (l : List (Except String WalkEnt)) (n : Nat) (st : St),
      walkLoop E w src dst1 sp l n st = walkLoop E w src dst2 sp l n st := by
  intro l
  induction l with
  | nil => intro n st; rfl
  | cons e rest ih =>
    intro n st
    unfold walkLoop
    split
    · rfl
    · split
      · rfl
      · split
        · rfl
        · rename_i ent entMeta hmeta
          split
          · split
            · rfl
            · rename_i canonPath hcanon
              split
              · rfl
              · rename_i rel hrel
                rw [addFile_dest_congr E w entMeta rel src dst1 dst2 st (hd rel)]
                cases addFile E w entMeta rel src dst2 st with
                | err e2 => rfl
                | panic e2 => rfl
                | ok st2 => exact ih (n + 1) st2
          · exact ih (n + 1) st

theorem pathsLoop_dest_congr (E : HashEngine) (w : World) (src dst1 dst2 : MPath)
    (hd : ∀ p, destPath dst1 p = destPath dst2 p) :
    ∀ (paths : List MPath) (n : Nat) (st : St),
      pathsLoop E w src dst1 paths n st = pathsLoop E w src dst2 paths n st := by
  intro paths
  induction paths with
  | nil => intro n st; rfl
  | cons p rest ih =>
    intro n st
    unfold pathsLoop
    split
    · rfl
    · split
      · rfl
      · rename_i md hmd
        split
        · rw [walkLoop_dest_congr E w src dst1 dst2 (src.join p) hd (w.walk (src.join p)) (n + 1) st]
          cases walkLoop E w src dst2 (src.join p) (w.walk (src.join p)) (n + 1) st with
          | err e2 => rfl
          | panic e2 => rfl
          | ok stn => exact ih stn.2 stn.1
        · rw [addFile_dest_congr E w md p src dst1 dst2 st (hd p)]
          cases addFile E w md p src dst2 st with
          | err e2 => rfl
          | panic e2 => rfl
          | ok st2 => exact ih (n + 1) st2

theorem create_dest_congr (E : HashEngine) (w : World) (paths : List MPath) (s dst1 dst2 : MPath)
    (hd : ∀ p, destPath dst1 p = destPath dst2 p) :
    create E w paths s dst1 = create E w paths s dst2 := by
  unfold create
  split
  · rfl
  · rename_i src hsrc
    rw [pathsLoop_dest_congr E w src dst1 dst2 hd paths 0 ⟨[], []⟩]


theorem pres_map_rel_cases {α β : Type} (f : α → β) (x y : PRes α)
    (h : PRes.map f x = PRes.map f y) :
    (∃ e, x = .err e ∧ y = .err e) ∨ (∃ e, x = .panic e ∧ y = .panic e) ∨
      (∃ a b, x = .ok a ∧ y = .ok b ∧ f a = f b) := by
  cases x <;> cases y <;> simp [PRes.map] at h <;> simp [h]

theorem walkLoop_hashes_rel (E : HashEngine) (w : World) (src dst1 dst2 sp : MPath) :
    ∀ (l : List (Except String WalkEnt)) (n : Nat) (st1 st2 : St),
      st1.hashes = st2.hashes →
      PRes.map (fun x => (x.1.hashes, x.2)) (walkLoop E w src dst1 sp l n st1) =
        PRes.map (fun x => (x.1.hashes, x.2)) (walkLoop E w src dst2 sp l n st2) := by
  intro l
  induction l with
  | nil => intro n st1 st2 hh; simp [walkLoop, PRes.map, hh]
  | cons e rest ih =>
    intro n st1 st2 hh
    unfold walkLoop
    split
    · rfl
    · split
      · rfl
      · split
        · rfl
        · rename_i ent entMeta hmeta
          split
          · split
            · rfl
            · rename_i canonPath hcanon
              split
              · rfl
              · rename_i rel hrel
                have haf := addFile_hashes_rel E w entMeta rel src dst1 dst2 st1 st2 hh
                rcases pres_map_rel_cases St.hashes _ _ haf with
                  ⟨e2, hx, hy⟩ | ⟨e2, hx, hy⟩ | ⟨a, b, hx, hy, hfab⟩
                · rw [hx, hy]
                · rw [hx, hy]
                · rw [hx, hy]
                  exact ih (n + 1) a b hfab
          · exact ih (n + 1) st1 st2 hh

theorem pathsLoop_hashes_rel (E : HashEngine) (w : World) (src dst1 dst2 : MPath) :
    ∀ (paths : List MPath) (n : Nat) (st1 st2 : St),
      st1.hashes = st2.hashes →
      PRes.map (fun x => (x.1.hashes, x.2)) (pathsLoop E w src dst1 paths n st1) =
        PRes.map (fun x => (x.1.hashes, x.2)) (pathsLoop E w src dst2 paths n st2) := by
  intro paths
  induction paths with
  | nil => intro n st1 st2 hh; simp [pathsLoop, PRes.map, hh]
  | cons p rest ih =>
    intro n st1 st2 hh
    unfold pathsLoop
    split
    · rfl
    · split
      · rfl
      · rename_i md hmd
        split
        · have hwl := walkLoop_hashes_rel E w src dst1 dst2 (src.join p)
            (w.walk (src.join p)) (n + 1) st1 st2 hh
          rcases pres_map_rel_cases (fun x : St × Nat => (x.1.hashes, x.2)) _ _ hwl with
            ⟨e2, hx, hy⟩ | ⟨e2, hx, hy⟩ | ⟨a, b, hx, hy, hfab⟩
          · rw [hx, hy]
          · rw [hx, hy]
          · rw [hx, hy]
            obtain ⟨a1, a2⟩ := a
            obtain ⟨b1, b2⟩ := b
            obtain ⟨hab, hn⟩ : a1.hashes = b1.hashes ∧ a2 = b2 := by
              simpa [Prod.ext_iff] using hfab
            subst hn
            exact ih a2 a1 b1 hab
        · have haf := addFile_hashes_rel E w md p src dst1 dst2 st1 st2 hh
          rcases pres_map_rel_cases St.hashes _ _ haf with
            ⟨e2, hx, hy⟩ | ⟨e2, hx, hy⟩ | ⟨a, b, hx, hy, hfab⟩
          · rw [hx, hy]
          · rw [hx, hy]
          · rw [hx, hy]
            exact ih (n + 1) a b hfab

theorem create_snd_rel (E : HashEngine) (w : World) (paths : List MPath) (s d1 d2 : MPath) :
    PRes.map Prod.snd (create E w paths s d1) = PRes.map Prod.snd (create E w paths s d2) := by
  unfold create
  split
  · rfl
  · rename_i src hsrc
    have h := pathsLoop_hashes_rel E w src d1 d2 paths 0 ⟨[], []⟩ ⟨[], []⟩ rfl
    rcases pres_map_rel_cases (fun x : St × Nat => (x.1.hashes, x.2)) _ _ h with
      ⟨e, hx, hy⟩ | ⟨e, hx, hy⟩ | ⟨a, b, hx, hy, hfab⟩
    · rw [hx, hy]
    · rw [hx, hy]
    · rw [hx, hy]
      obtain ⟨a1, a2⟩ := a
      obtain ⟨b1, b2⟩ := b
      obtain ⟨hab, -⟩ : a1.hashes = b1.hashes ∧ a2 = b2 := by
        simpa [Prod.ext_iff] using hfab
      cases w.intoInnerErr with
      | some e => rfl
      | none => simp [PRes.map, hab]


theorem walkLoop_obs (E : HashEngine) (w1 w2 : World) (src dst sp : MPath)
    (hopen : ∀ q, w1.openErr q = w2.openErr q)
    (hhr : ∀ q, w1.hashReadErr q = w2.hashReadErr q)
    (hct : ∀ q, w1.content q = w2.content q)
    (hsk : ∀ q, w1.seekErr q = w2.seekErr q)
    (hap : ∀ q, w1.appendOk q = w2.appendOk q)
    (hint : ∀ i, w1.interrupted i = w2.interrupted i) :
    ∀ (l1 l2 : List (Except String WalkEnt)), l1.map entObs = l2.map entObs →
      ∀ (n : Nat) (st : St),
        walkLoop E w1 src dst sp l1 n st = walkLoop E w2 src dst sp l2 n st := by
  intro l1
  induction l1 with
  | nil =>
    intro l2 hl n st
    have h2 : l2 = [] := by simpa using hl.symm
    subst h2
    rfl
  | cons e1 r1 ih =>
    intro l2 hl n st
    cases l2 with
    | nil => simp at hl
    | cons e2 r2 =>
      simp only [List.map_cons, List.cons.injEq] at hl
      obtain ⟨he, hr⟩ := hl
      unfold walkLoop
      rw [hint n]
      split
      · rfl
      · cases e1 with
        | error m1 =>
          cases e2 with
          | error m2 =>
            have hm : m1 = m2 := by simpa [entObs, Except.map] using he
            dsimp only
            rw [hm]
          | ok ent2 => simp [entObs, Except.map] at he
        | ok ent1 =>
          cases e2 with
          | error m2 => simp [entObs, Except.map] at he
          | ok ent2 =>
            have hobs : ent1.obs = ent2.obs := by
              simpa [entObs, Except.map] using he
            obtain ⟨hpath, hisFile, hmetaObs, hcanon⟩ :
                ent1.path = ent2.path ∧ ent1.isFile = ent2.isFile ∧
                  metaObs ent1.metaRes = metaObs ent2.metaRes ∧
                  ent1.canonRes = ent2.canonRes := by
              simpa [WalkEnt.obs, Prod.ext_iff] using hobs
            dsimp only
            cases hm1 : ent1.metaRes with
            | error m1 =>
              cases hm2 : ent2.metaRes with
              | error m2 =>
                have hm : m1 = m2 := by
                  rw [hm1, hm2] at hmetaObs
                  simpa [metaObs, Except.map] using hmetaObs
                dsimp only
                rw [hm]
              | ok mm2 =>
                rw [hm1, hm2] at hmetaObs
                simp [metaObs, Except.map] at hmetaObs
            | ok mm1 =>
              cases hm2 : ent2.metaRes with
              | error m2 =>
                rw [hm1, hm2] at hmetaObs
                simp [metaObs, Except.map] at hmetaObs
              | ok mm2 =>
                have hmm : mm1.obs = mm2.obs := by
                  rw [hm1, hm2] at hmetaObs
                  simpa [metaObs, Except.map] using hmetaObs
                dsimp only
                rw [hisFile]
                split
                · rw [hcanon]
                  cases ent2.canonRes with
                  | error m =>
                    dsimp only
                    rw [hpath]
                  | ok canonPath =>
                    dsimp only
                    cases canonPath.relativeTo src with
                    | none =>
                      dsimp only
                      rw [hpath]
                    | some rel =>
                      dsimp only
                      rw [addFile_obs E w1 w2 mm1 mm2 rel src dst st hmm hopen hhr hct hsk hap]
                      cases addFile E w2 mm2 rel src dst st with
                      | err e3 => rfl
                      | panic e3 => rfl
                      | ok st2 => exact ih r2 hr (n + 1) st2
                · exact ih r2 hr (n + 1) st

theorem pathsLoop_obs (E : HashEngine) (w1 w2 : World) (src dst : MPath)
    (hmeta : ∀ q, metaObs (w1.meta q) = metaObs (w2.meta q))
    (hwalk : ∀ q, (w1.walk q).map entObs = (w2.walk q).map entObs)
    (hopen : ∀ q, w1.openErr q = w2.openErr q)
    (hhr : ∀ q, w1.hashReadErr q = w2.hashReadErr q)
    (hct : ∀ q, w1.content q = w2.content q)
    (hsk : ∀ q, w1.seekErr q = w2.seekErr q)
    (hap : ∀ q, w1.appendOk q = w2.appendOk q)
    (hint : ∀ i, w1.interrupted i = w2.interrupted i) :
    ∀ (paths : List MPath) (n : Nat) (st : St),
      pathsLoop E w1 src dst paths n st = pathsLoop E w2 src dst paths n st := by
  intro paths
  induction paths with
  | nil => intro n st; rfl
  | cons p rest ih =>
    intro n st
    unfold pathsLoop
    rw [hint n]
    split
    · rfl
    · cases hm1 : w1.meta (src.join p) with
      | error m1 =>
        cases hm2 : w2.meta (src.join p) with
        | error m2 =>
          have hm : m1 = m2 := by
            have hq := hmeta (src.join p)
            rw [hm1, hm2] at hq
            simpa [metaObs, Except.map] using hq
          dsimp only
          rw [hm]
        | ok mm2 =>
          have hq := hmeta (src.join p)
          rw [hm1, hm2] at hq
          simp [metaObs, Except.map] at hq
      | ok mm1 =>
        cases hm2 : w2.meta (src.join p) with
        | error m2 =>
          have hq := hmeta (src.join p)
          rw [hm1, hm2] at hq
          simp [metaObs, Except.map] at hq
        | ok mm2 =>
          have hmm : mm1.obs = mm2.obs := by
            have hq := hmeta (src.join p)
            rw [hm1, hm2] at hq
            simpa [metaObs, Except.map] using hq
          obtain ⟨hmode, hlen, hdir⟩ :
              mm1.mode = mm2.mode ∧ mm1.len = mm2.len ∧ mm1.isDir = mm2.isDir := by
            simpa [MMeta.obs, Prod.ext_iff] using hmm
          dsimp only
          rw [hdir]
          split
          · rw [walkLoop_obs E w1 w2 src dst (src.join p) hopen hhr hct hsk hap hint
              (w1.walk (src.join p)) (w2.walk (src.join p)) (hwalk (src.join p)) (n + 1) st]
            cases walkLoop E w2 src dst (src.join p) (w2.walk (src.join p)) (n + 1) st with
            | err e => rfl
            | panic e => rfl
            | ok stn =>
              obtain ⟨st2, n2⟩ := stn
              exact ih n2 st2
          · rw [addFile_obs E w1 w2 mm1 mm2 p src dst st hmm hopen hhr hct hsk hap]
            cases addFile E w2 mm2 p src dst st with
            | err e => rfl
            | panic e => rfl
            | ok st2 => exact ih (n + 1) st2

theorem create_obs (E : HashEngine) (w1 w2 : World) (paths : List MPath) (s d : MPath)
    (h : World.obsEq w1 w2) (hint : ∀ i, w1.interrupted i = w2.interrupted i) :
    create E w1 paths s d = create E w2 paths s d := by
  obtain ⟨hcanon, hmeta, hwalk, hopen, hhr, hct, hsk, hap, hii⟩ := h
  unfold create
  rw [hcanon]
  cases w2.canonSource with
  | error e => rfl
  | ok src =>
    dsimp only
    rw [pathsLoop_obs E w1 w2 src d hmeta hwalk hopen hhr hct hsk hap hint paths 0 ⟨[], []⟩]
    cases pathsLoop E w2 src d paths 0 ⟨[], []⟩ with
    | err e => rfl
    | panic e => rfl
    | ok stn =>
      obtain ⟨st, n⟩ := stn
      dsimp only
      rw [hii]


theorem and_two_pow_pos (mode i : Nat) : decide (mode &&& 2 ^ i > 0) = mode.testBit i := by
  rw [Nat.and_two_pow]
  cases h : mode.testBit i <;> simp [h, Nat.pos_pow_of_pos]

theorem isExecutable_iff (mode : Nat) : isExecutable mode = true ↔ specExecutable mode := by
  unfold isExecutable specExecutable
  rw [show (0o1 : Nat) = 2 ^ 0 by norm_num, show (0o10 : Nat) = 2 ^ 3 by norm_num,
    show (0o100 : Nat) = 2 ^ 6 by norm_num, and_two_pow_pos, and_two_pow_pos, and_two_pow_pos]
  simp [or_assoc]

theorem create_interrupted_first (E : HashEngine) (w : World) (p : MPath)
    (rest : List MPath) (s d src : MPath)
    (hsrc : w.canonSource = .ok src) (hflag : w.interrupted 0 = true) :
    create E w (p :: rest) s d = .err INTERRUPT_MESSAGE := by
  unfold create
  rw [hsrc]
  dsimp only
  unfold pathsLoop
  rw [hflag]
  simp

theorem create_nil (E : HashEngine) (w : World) (s d src : MPath)
    (hsrc : w.canonSource = .ok src) (hii : w.intoInnerErr = none) :
    create E w [] s d = .ok ([], E.hash_str "") := by
  unfold create
  rw [hsrc]
  dsimp only
  unfold pathsLoop
  dsimp only
  rw [hii]
  simp [aggregate, sortStrings]

theorem scenario_hashes (E : HashEngine) :
    runHashes E scenarioWorld [pBtxt, pCsh] dstFoo =
      some [E.extend (E.extend (E.hash_str "a/b.txt") (E.hash_bytes "hi")) "-x",
        E.extend (E.extend (E.hash_str "a/c.sh") (E.hash_bytes "bye")) "+x"] := rfl

/-! Claim theorems.  Each claim of the specification audit gets exactly one
theorem below, together with a witness (for theorems with hypotheses) or a
counterexample (for corrected claims). -/

/-- C1 (corrected): the claim asserts that a pre-set cancellation flag makes
`create` return `InterruptedError` for every input list, including the empty
one, and regardless of source-root canonicalization.  The code polls the
flag only at the top of the per-path loop, after canonicalizing the source
root: with an empty path list it never polls the flag and succeeds, and when
canonicalization fails it returns the canonicalization error instead of the
interrupt sentinel.  This closed counterexample exhibits both failures of
the claim at concrete inputs. -/
theorem c1_counterexample :
    create demoEngine wFlagTrue [] rootPath dstFoo = .ok ([], "S:") ∧
      create demoEngine wCanonFail [pBtxt] rootPath dstFoo =
        .err "Unable to canonicalize path /root. Details: denied" ∧
      "Unable to canonicalize path /root. Details: denied" ≠ INTERRUPT_MESSAGE := by
  refine ⟨by decide, by decide, by decide⟩

/-- C1 (amended): if the cancellation flag is observed set at the first
poll, the input list is nonempty, and the source root canonicalizes
successfully, then `create` returns the `InterruptedError` sentinel and
produces no archive and no fingerprint (the error outcome carries
neither). -/
theorem c1_interrupted_flag_amended (E : HashEngine) (w : World) (p : MPath)
    (rest : List MPath) (s d src : MPath)
    (hsrc : w.canonSource = .ok src) (hflag : w.interrupted 0 = true) :
    create E w (p :: rest) s d = .err INTERRUPT_MESSAGE :=
  create_interrupted_first E w p rest s d src hsrc hflag

/-- Witness for C1 (amended) at a concrete input: a nonempty input list in a
world whose flag is always set yields the interrupt sentinel. -/
theorem c1_witness :
    create demoEngine wFlagTrue [pBtxt] rootPath dstFoo = .err INTERRUPT_MESSAGE :=
  c1_interrupted_flag_amended demoEngine wFlagTrue pBtxt [] rootPath dstFoo rootPath rfl rfl

/-- C2 (corrected): the claim asserts that no execution path escapes the
ok-or-error contract, even a failure while appending a file to the archive.
But `add_file` calls `builder.append_data(..).unwrap()` (src/tar.rs line
73): when the underlying writer fails during the append, the code panics
instead of returning an error.  This closed counterexample runs `create` in
a world whose writer rejects every append and observes the panic outcome. -/
theorem c2_counterexample :
    create demoEngine wAppendFail [pBtxt] rootPath dstFoo =
      .panic "called Result::unwrap() on an Err value while appending /root/a/b.txt" := by
  decide

/-- C2 (amended): provided no append to the archive writer fails, `create`
terminates handing the caller exactly one of the two outcomes — the success
pair or a single error value — on every input; termination itself holds
unconditionally because the embedding is a total function. -/
theorem c2_two_outcomes_amended (E : HashEngine) (w : World) (paths : List MPath)
    (s d : MPath) (hap : ∀ q, w.appendOk q = true) :
    (∃ r, create E w paths s d = .ok r) ∨ (∃ e, create E w paths s d = .err e) := by
  have hnp := create_not_panic E w paths s d hap
  cases hcr : create E w paths s d with
  | ok r => exact Or.inl ⟨r, rfl⟩
  | err e => exact Or.inr ⟨e, rfl⟩
  | panic e =>
    rw [hcr] at hnp
    simp [PRes.isPanic] at hnp

/-- Witness for C2 (amended) at a concrete input: in the all-appends-succeed
scenario world the run ends in `ok` or `err`. -/
theorem c2_witness :
    (∃ r, create demoEngine scenarioWorld [pBtxt] rootPath dstFoo = .ok r) ∨
      (∃ e, create demoEngine scenarioWorld [pBtxt] rootPath dstFoo = .err e) :=
  c2_two_outcomes_amended demoEngine scenarioWorld [pBtxt] rootPath dstFoo (fun _ => rfl)

/-- C3 (confirmed): every successfully ingested file pushes exactly the
per-file digest `extend(extend(hash_str(relativePath), hash_bytes(content)),
executable ? "+x" : "-x")` onto the digest list, and in the spec's concrete
two-file scenario the recorded digests are exactly
`extend(extend(hash_str "a/b.txt", hash_bytes "hi"), "-x")` and
`extend(extend(hash_str "a/c.sh", hash_bytes "bye"), "+x")`, for every hash
engine. -/
theorem c3_per_file_digest :
    (∀ (E : HashEngine) (w : World) (m : MMeta) (p s d : MPath) (st st' : St),
      addFile E w m p s d st = .ok st' →
        st'.hashes = st.hashes ++
          [E.extend
            (E.extend (E.hash_str p.toStringLossy) (E.hash_bytes (w.content (s.join p))))
            (if isExecutable m.mode then "+x" else "-x")]) ∧
    (∀ E : HashEngine, runHashes E scenarioWorld [pBtxt, pCsh] dstFoo =
      some [E.extend (E.extend (E.hash_str "a/b.txt") (E.hash_bytes "hi")) "-x",
        E.extend (E.extend (E.hash_str "a/c.sh") (E.hash_bytes "bye")) "+x"]) := by
  constructor
  · intro E w m p s d st st' h
    rw [addFile_ok_iff] at h
    obtain ⟨-, -, -, -, hst⟩ := h
    rw [hst]
  · intro E
    exact scenario_hashes E

/-- Witness for C3 at a concrete input: ingesting `a/b.txt` from the
scenario world with the demo engine records exactly the claimed digest. -/
theorem c3_witness :
    (⟨[⟨⟨false, ["foo", "a", "b.txt"]⟩, 0o666, 2, "hi"⟩],
        ["<<S:a/b.txt|B:hi>|-x>"]⟩ : St).hashes =
      (⟨[], []⟩ : St).hashes ++
        [demoEngine.extend
          (demoEngine.extend (demoEngine.hash_str pBtxt.toStringLossy)
            (demoEngine.hash_bytes (scenarioWorld.content (rootPath.join pBtxt))))
          (if isExecutable fileMetaB.mode then "+x" else "-x")] :=
  c3_per_file_digest.1 demoEngine scenarioWorld fileMetaB pBtxt rootPath dstFoo
    ⟨[], []⟩ _ (by decide)

/-- C4 (confirmed): whenever `create` succeeds, the returned fingerprint is
the left fold — seeded with `hash_str("")` and combined with `extend` — of
the collected per-file digests taken in sorted order (Lean's `String` order
coincides with Rust's byte-lexicographic order on UTF-8 strings). -/
theorem c4_fingerprint_sorted_fold (E : HashEngine) (w : World) (paths : List MPath)
    (s d : MPath) (a : List Entry) (fp : String)
    (h : create E w paths s d = .ok (a, fp)) :
    ∃ l, runHashes E w paths d = some l ∧
      ∃ l' : List String, l'.Perm l ∧ l'.Sorted (fun x y => x ≤ y) ∧
        fp = l'.foldl (fun acc x => E.extend acc x) (E.hash_str "") := by
  obtain ⟨l, hl, hfp⟩ := create_ok_hashes E w paths s d a fp h
  obtain ⟨l', hperm, hsorted, hagg⟩ := aggregate_sorted_fold E l
  exact ⟨l, hl, l', hperm, hsorted, by rw [hfp, hagg]⟩

/-- Witness for C4 at a concrete input: the scenario run's fingerprint is
the sorted fold of its two collected digests. -/
theorem c4_witness :
    ∃ l, runHashes demoEngine scenarioWorld [pBtxt, pCsh] dstFoo = some l ∧
      ∃ l' : List String, l'.Perm l ∧ l'.Sorted (fun x y => x ≤ y) ∧
        "<<S:|<<S:a/b.txt|B:hi>|-x>>|<<S:a/c.sh|B:bye>|+x>>" =
          l'.foldl (fun acc x => demoEngine.extend acc x) (demoEngine.hash_str "") :=
  c4_fingerprint_sorted_fold demoEngine scenarioWorld [pBtxt, pCsh] rootPath dstFoo
    [⟨⟨false, ["foo", "a", "b.txt"]⟩, 0o666, 2, "hi"⟩,
      ⟨⟨false, ["foo", "a", "c.sh"]⟩, 0o777, 3, "bye"⟩]
    "<<S:|<<S:a/b.txt|B:hi>|-x>>|<<S:a/c.sh|B:bye>|+x>>" (by decide)

/-- C5 (confirmed): the fingerprint is invariant under reordering of
discovery: any two successful runs whose collected per-file digest lists are
permutations of one another return the identical fingerprint. -/
theorem c5_fingerprint_perm_invariant (E : HashEngine) (w1 w2 : World)
    (p1 p2 : List MPath) (s1 s2 d1 d2 : MPath) (a1 a2 : List Entry) (fp1 fp2 : String)
    (l1 l2 : List String)
    (h1 : create E w1 p1 s1 d1 = .ok (a1, fp1))
    (h2 : create E w2 p2 s2 d2 = .ok (a2, fp2))
    (hl1 : runHashes E w1 p1 d1 = some l1)
    (hl2 : runHashes E w2 p2 d2 = some l2)
    (hperm : l1.Perm l2) : fp1 = fp2 := by
  obtain ⟨l1', hl1', hfp1⟩ := create_ok_hashes E w1 p1 s1 d1 a1 fp1 h1
  obtain ⟨l2', hl2', hfp2⟩ := create_ok_hashes E w2 p2 s2 d2 a2 fp2 h2
  rw [hl1] at hl1'
  rw [hl2] at hl2'
  injection hl1' with hl1'
  injection hl2' with hl2'
  rw [hfp1, hfp2, ← hl1', ← hl2']
  exact aggregate_perm E l1 l2 hperm

/-- Witness for C5 at concrete inputs: processing the scenario's two files
in the two opposite orders collects the two digests in opposite orders yet
returns the identical fingerprint. -/
theorem c5_witness :
    "<<S:|<<S:a/b.txt|B:hi>|-x>>|<<S:a/c.sh|B:bye>|+x>>" =
      "<<S:|<<S:a/b.txt|B:hi>|-x>>|<<S:a/c.sh|B:bye>|+x>>" :=
  c5_fingerprint_perm_invariant demoEngine scenarioWorld scenarioWorld
    [pBtxt, pCsh] [pCsh, pBtxt] rootPath rootPath dstFoo dstFoo
    [⟨⟨false, ["foo", "a", "b.txt"]⟩, 0o666, 2, "hi"⟩,
      ⟨⟨false, ["foo", "a", "c.sh"]⟩, 0o777, 3, "bye"⟩]
    [⟨⟨false, ["foo", "a", "c.sh"]⟩, 0o777, 3, "bye"⟩,
      ⟨⟨false, ["foo", "a", "b.txt"]⟩, 0o666, 2, "hi"⟩]
    "<<S:|<<S:a/b.txt|B:hi>|-x>>|<<S:a/c.sh|B:bye>|+x>>"
    "<<S:|<<S:a/b.txt|B:hi>|-x>>|<<S:a/c.sh|B:bye>|+x>>"
    ["<<S:a/b.txt|B:hi>|-x>", "<<S:a/c.sh|B:bye>|+x>"]
    ["<<S:a/c.sh|B:bye>|+x>", "<<S:a/b.txt|B:hi>|-x>"]
    (by decide) (by decide) (by decide) (by decide) (by decide)

/-- C6 (confirmed): every destination path placed in the archive is
relative (the leading root separator is stripped), and destination roots
differing only by a leading root separator produce byte-identical archives
and identical fingerprints — the two runs of `create` are equal outright. -/
theorem c6_destination_root_strip :
    (∀ d p : MPath, (destPath d p).abs = false) ∧
    (∀ (E : HashEngine) (w : World) (paths : List MPath) (s : MPath) (c : List String),
      create E w paths s ⟨true, c⟩ = create E w paths s ⟨false, c⟩) := by
  constructor
  · intro d p
    unfold destPath
    dsimp only
    split
    · rfl
    · rename_i h
      simpa using h
  · intro E w paths s c
    exact create_dest_congr E w paths s ⟨true, c⟩ ⟨false, c⟩ (destPath_strip c)

/-- C7 (confirmed): a file is classified executable exactly when one of the
owner, group, or other execute permission bits of its mode is set, and a
successful ingestion appends exactly one archive entry whose header mode is
`0o777` for executables and `0o666` otherwise and whose size is the file's
metadata byte length. -/
theorem c7_executable_header :
    (∀ mode : Nat, isExecutable mode = true ↔ specExecutable mode) ∧
    (∀ (E : HashEngine) (w : World) (m : MMeta) (p s d : MPath) (st st' : St),
      addFile E w m p s d st = .ok st' →
        st'.entries = st.entries ++
          [⟨destPath d p, if isExecutable m.mode then 0o777 else 0o666, m.len,
            w.content (s.join p)⟩]) := by
  constructor
  · exact isExecutable_iff
  · intro E w m p s d st st' h
    rw [addFile_ok_iff] at h
    obtain ⟨-, -, -, -, hst⟩ := h
    rw [hst]

/-- Witness for C7 at a concrete input: ingesting the executable `a/c.sh`
(mode `0o755`) appends an entry with header mode `0o777` and size 3. -/
theorem c7_witness :
    (⟨[⟨⟨false, ["foo", "a", "c.sh"]⟩, 0o777, 3, "bye"⟩],
        ["<<S:a/c.sh|B:bye>|+x>"]⟩ : St).entries =
      (⟨[], []⟩ : St).entries ++
        [⟨destPath dstFoo pCsh, if isExecutable fileMetaC.mode then 0o777 else 0o666,
          fileMetaC.len, scenarioWorld.content (rootPath.join pCsh)⟩] :=
  c7_executable_header.2 demoEngine scenarioWorld fileMetaC pCsh rootPath dstFoo
    ⟨[], []⟩ _ (by decide)

/-- C8 (confirmed): `create` is deterministic.  Two runs over the same
unchanged file set — worlds agreeing on everything the code observes
(canonicalization, mode bits, lengths, directory flags, walk streams,
contents, and I/O outcomes), though free to differ in metadata the code
never reads such as timestamps and owners — with the cancellation flag never
set, return identical outcomes: byte-identical archives and identical
fingerprint strings. -/
theorem c8_deterministic (E : HashEngine) (w1 w2 : World) (paths : List MPath)
    (s d : MPath) (hobs : World.obsEq w1 w2)
    (hf1 : ∀ i, w1.interrupted i = false) (hf2 : ∀ i, w2.interrupted i = false) :
    create E w1 paths s d = create E w2 paths s d :=
  create_obs E w1 w2 paths s d hobs (fun i => by rw [hf1 i, hf2 i])

/-- Witness for C8 at concrete inputs: the scenario world and the same world
with different timestamps and owners yield identical archives and
fingerprints. -/
theorem c8_witness :
    create demoEngine scenarioWorld [pBtxt, pCsh] rootPath dstFoo =
      create demoEngine wOtherMtime [pBtxt, pCsh] rootPath dstFoo := by
  refine c8_deterministic demoEngine scenarioWorld wOtherMtime [pBtxt, pCsh] rootPath dstFoo
    ⟨rfl, ?_, fun q => rfl, fun q => rfl, fun q => rfl, fun q => rfl, fun q => rfl,
      fun q => rfl, rfl⟩ (fun i => rfl) (fun i => rfl)
  intro q
  by_cases h1 : q = rootPath.join pBtxt
  · simp +decide [scenarioWorld, wOtherMtime, h1, metaObs, MMeta.obs, Except.map, fileMetaB]
  · by_cases h2 : q = rootPath.join pCsh
    · simp +decide [scenarioWorld, wOtherMtime, h1, h2, metaObs, MMeta.obs, Except.map,
        fileMetaC]
    · simp [scenarioWorld, wOtherMtime, h1, h2, metaObs, Except.map]

/-- C9 (corrected): the claim asserts that with an empty input list `create`
succeeds provided only that the source root canonicalizes.  One more proviso
is needed: finalizing the archive stream (`into_inner`, src/tar.rs lines
201-203) can itself fail, in which case `create` returns that error even for
an empty input list.  This closed counterexample exhibits the failure. -/
theorem c9_counterexample :
    create demoEngine wIntoFail [] rootPath dstFoo =
      .err "Error writing tar archive. Details: boom" ∧
    create demoEngine wIntoFail [] rootPath dstFoo ≠
      .ok ([], demoEngine.hash_str "") := by
  refine ⟨by decide, by decide⟩

/-- C9 (amended): for the empty input list, provided the source root
canonicalizes and the archive finalization succeeds, `create` succeeds with
an archive containing no entries and the fingerprint `hash_str("")` — and it
never polls the cancellation flag: the world (hence the whole poll sequence
of the flag) is universally quantified, so the result holds even when every
poll would report the flag set. -/
theorem c9_empty_paths_amended (E : HashEngine) (w : World) (s d src : MPath)
    (hsrc : w.canonSource = .ok src) (hii : w.intoInnerErr = none) :
    create E w [] s d = .ok ([], E.hash_str "") :=
  create_nil E w s d src hsrc hii

/-- Witness for C9 (amended) at a concrete input: in a world whose
cancellation flag reads `true` at every poll, the empty input list still
succeeds with the empty archive and the seed fingerprint, showing the flag
is never polled. -/
theorem c9_witness :
    create demoEngine wFlagTrue [] rootPath dstFoo = .ok ([], demoEngine.hash_str "") :=
  c9_empty_paths_amended demoEngine wFlagTrue rootPath dstFoo rootPath rfl rfl

/-- C10 (confirmed): the fingerprint — and more generally everything except
the archive entries themselves — is independent of the destination root: for
arbitrary destination roots, projecting the archive away from the outcome of
`create` yields identical results, because each per-file digest hashes only
the source-relative path. -/
theorem c10_fingerprint_dest_independent (E : HashEngine) (w : World)
    (paths : List MPath) (s d1 d2 : MPath) :
    PRes.map Prod.snd (create E w paths s d1) = PRes.map Prod.snd (create E w paths s d2) :=
  create_snd_rel E w paths s d1 d2


end Toast
